import Mathlib

/-!
Verification of the `ripemd160` crate (RustCrypto `hashes` repository).

The embedding models `src/ripemd160/src/lib.rs`: the `Ripemd160` struct
(`h : [u32; 5]`, `len : u64`, `buffer : BlockBuffer<U64>`), its `Input::process`,
`FixedOutput::fixed_result` and `Reset::reset` implementations.  Machine words
are `Nat` with explicit reduction modulo `2^32` / `2^64`.  The compression
function lives in the crate's `block` module and the buffering in the
`block_buffer` crate; those parts are modelled from the specification
(standard RIPEMD-160, MD-style length padding) as noted on each definition.
-/

/-- 2^32, the modulus for `u32` arithmetic. -/
def M32 : Nat := 4294967296

/-- 2^64, the modulus for `u64` arithmetic. -/
def M64 : Nat := 18446744073709551616

/-- Left rotation of a 32-bit word (input assumed `< M32`). -/
def rotl32 (x n : Nat) : Nat :=
  ((x <<< n) % M32) ||| (x >>> (32 - n))

/-- Modelled from the spec: the five nonlinear Boolean functions of the
RIPEMD-160 round algorithm (the crate's `block` module is not under `src/`).
`i` selects the function (0..4). -/
def bf (i x y z : Nat) : Nat :=
  if i = 0 then x ^^^ y ^^^ z
  else if i = 1 then (x &&& y) ||| ((x ^^^ 4294967295) &&& z)
  else if i = 2 then (x ||| (y ^^^ 4294967295)) ^^^ z
  else if i = 3 then (x &&& z) ||| (y &&& (z ^^^ 4294967295))
  else x ^^^ (y ||| (z ^^^ 4294967295))

/-- Modelled from the spec: round constants of the left line. -/
def kL (j : Nat) : Nat :=
  if j < 16 then 0
  else if j < 32 then 0x5A827999
  else if j < 48 then 0x6ED9EBA1
  else if j < 64 then 0x8F1BBCDC
  else 0xA953FD4E

/-- Modelled from the spec: round constants of the right line. -/
def kR (j : Nat) : Nat :=
  if j < 16 then 0x50A28BE6
  else if j < 32 then 0x5C4DD124
  else if j < 48 then 0x6D703EF3
  else if j < 64 then 0x7A6D76E9
  else 0

/-- Modelled from the spec: message-word selection permutation, left line. -/
def rL : List Nat :=
  [0,1,2,3,4,5,6,7,8,9,10,11,12,13,14,15,
   7,4,13,1,10,6,15,3,12,0,9,5,2,14,11,8,
   3,10,14,4,9,15,8,1,2,7,0,6,13,11,5,12,
   1,9,11,10,0,8,12,4,13,3,7,15,14,5,6,2,
   4,0,5,9,7,12,2,10,14,1,3,8,11,6,15,13]

/-- Modelled from the spec: message-word selection permutation, right line. -/
def rR : List Nat :=
  [5,14,7,0,9,2,11,4,13,6,15,8,1,10,3,12,
   6,11,3,7,0,13,5,10,14,15,8,12,4,9,1,2,
   15,5,1,3,7,14,6,9,11,8,12,2,10,0,4,13,
   8,6,4,1,3,11,15,0,5,12,2,13,9,7,10,14,
   12,15,10,4,1,5,8,7,6,2,13,14,0,3,9,11]

/-- Modelled from the spec: per-step left-rotation amounts, left line. -/
def sL : List Nat :=
  [11,14,15,12,5,8,7,9,11,13,14,15,6,7,9,8,
   7,6,8,13,11,9,7,15,7,12,15,9,11,7,13,12,
   11,13,6,7,14,9,13,15,14,8,13,6,5,12,7,5,
   11,12,14,15,14,15,9,8,9,14,5,6,8,6,5,12,
   9,15,5,11,6,8,13,12,5,12,13,14,11,8,5,6]

/-- Modelled from the spec: per-step left-rotation amounts, right line. -/
def sR : List Nat :=
  [8,9,9,11,13,15,15,5,7,7,8,11,14,14,12,6,
   9,13,15,7,12,8,9,11,7,7,12,7,6,15,13,11,
   9,7,15,11,8,6,6,14,12,13,5,14,13,13,7,5,
   15,5,8,11,14,14,6,14,6,9,12,9,12,5,15,8,
   8,5,12,9,12,5,14,6,8,13,6,5,15,13,11,11]

/-- Five 32-bit working registers / state words. -/
structure Word5 where
  a : Nat
  b : Nat
  c : Nat
  d : Nat
  e : Nat
deriving DecidableEq

/-- The five standard RIPEMD-160 initialization words (constant `H0` of the
crate's `block` module, which is not under `src/`; values modelled from the
spec). -/
def H0 : Word5 :=
  ⟨0x67452301, 0xefcdab89, 0x98badcfe, 0x10325476, 0xc3d2e1f0⟩

/-- Parse a 64-byte block as sixteen little-endian 32-bit words. -/
def wordsOfBlock (block : List Nat) : List Nat :=
  (List.range 16).map fun i =>
    block.getD (4*i) 0 + (block.getD (4*i+1) 0) <<< 8 +
    (block.getD (4*i+2) 0) <<< 16 + (block.getD (4*i+3) 0) <<< 24

/-- One step of an 80-step line: `fi` selects the Boolean function, `k` the
additive constant, `ri` the message word index, `si` the rotation amount. -/
def lineStep (X : List Nat) (fi k ri si : Nat) (st : Word5) : Word5 :=
  let t := (rotl32 ((st.a + bf fi st.b st.c st.d + X.getD ri 0 + k) % M32) si
              + st.e) % M32
  ⟨st.e, t, st.b, rotl32 st.c 10, st.d⟩

/-- Run the 80 steps of one parallel line. -/
def runLine (X : List Nat) (fSel kSel : Nat → Nat) (r s : List Nat)
    (init : Word5) : Word5 :=
  (List.range 80).foldl
    (fun st j => lineStep X (fSel j) (kSel j) (r.getD j 0) (s.getD j 0) st) init

/-- Modelled from the spec: `process_msg_block` of the crate's `block` module
(not under `src/`) — the RIPEMD-160 compression function: run the left and
right 80-step lines from the current state and cross-mix the results with the
original state words. -/
def process_msg_block (h : Word5) (block : List Nat) : Word5 :=
  let X := wordsOfBlock block
  let l := runLine X (fun j => j / 16) kL rL sL h
  let r := runLine X (fun j => 4 - j / 16) kR rR sR h
  ⟨(h.b + l.c + r.d) % M32,
   (h.c + l.d + r.e) % M32,
   (h.d + l.e + r.a) % M32,
   (h.e + l.a + r.b) % M32,
   (h.a + l.b + r.c) % M32⟩

/-- Modelled from the spec: one byte moving through the `block_buffer` crate's
`BlockBuffer<U64>` (not part of this repository): the byte is appended to the
pending buffer and a completed 64-byte block is fed to the compression
function, leaving the buffer empty. -/
def bufStep (acc : Word5 × List Nat) (byte : Nat) : Word5 × List Nat :=
  let buf := acc.2 ++ [byte]
  if buf.length = 64 then (process_msg_block acc.1 buf, []) else (acc.1, buf)

/-- Feed `data` through the block buffer starting from state `h` and pending
buffer `buf`; returns the new state and new pending buffer. -/
def processBytes (h : Word5) (buf data : List Nat) : Word5 × List Nat :=
  data.foldl bufStep (h, buf)

/-- State of a `Ripemd160` computation: the struct's fields `h : [u32; 5]`,
`len : u64` and `buffer : BlockBuffer<U64>` (its pending bytes). -/
structure Ripemd160 where
  h : Word5
  len : Nat
  buffer : List Nat
deriving DecidableEq

/-- `Default::default()`: initial constants, zero length, empty buffer. -/
def Ripemd160.init : Ripemd160 := ⟨H0, 0, []⟩

/-- `Input::process`: add the input length to `len` (u64 arithmetic) and feed
the bytes through the block buffer. -/
def process (st : Ripemd160) (input : List Nat) : Ripemd160 :=
  let p := processBytes st.h st.buffer input
  ⟨p.1, (st.len + input.length) % M64, p.2⟩

/-- `self.len << 3` as computed in `fixed_result`: the message bit length as a
`u64`. -/
def bitLenField (st : Ripemd160) : Nat :=
  (st.len <<< 3) % M64

/-- A `u64` as eight little-endian bytes. -/
def le64 (x : Nat) : List Nat :=
  (List.range 8).map fun i => (x >>> (8*i)) % 256

/-- A `u32` as four little-endian bytes. -/
def le32 (x : Nat) : List Nat :=
  (List.range 4).map fun i => (x >>> (8*i)) % 256

/-- Read back a 32-bit word from four little-endian bytes. -/
def le32val (b : List Nat) : Nat :=
  b.getD 0 0 + 256 * b.getD 1 0 + 65536 * b.getD 2 0 + 16777216 * b.getD 3 0

/-- Modelled from the spec: the bytes appended by the `block_buffer` crate's
`len64_padding::<LE, _>` (not part of this repository): a single `0x80`
byte, `0x00` bytes until the length is congruent to 56 mod 64, then the bit
length as a 64-bit little-endian integer. -/
def padBytes (bufLen bits : Nat) : List Nat :=
  0x80 :: (List.replicate ((119 - bufLen % 64) % 64) 0 ++ le64 bits)

/-- The padding appended at finalization for hasher state `st`. -/
def finalPad (st : Ripemd160) : List Nat :=
  padBytes st.buffer.length (bitLenField st)

/-- The five state words after the final padding block(s) are processed. -/
def finalWords (st : Ripemd160) : Word5 :=
  (processBytes st.h st.buffer (finalPad st)).1

/-- `LE::write_u32_into(&self.h, &mut out)`: the five words serialized
little-endian in order (modelled from the spec; `write_u32_into` is in the
external `byteorder` crate). -/
def serializeWords (w : Word5) : List Nat :=
  le32 w.a ++ le32 w.b ++ le32 w.c ++ le32 w.d ++ le32 w.e

/-- `FixedOutput::fixed_result`: pad with the 64-bit bit length, process the
final block(s), and serialize the state words little-endian. -/
def fixed_result (st : Ripemd160) : List Nat :=
  serializeWords (finalWords st)

/-- `Clone::clone` (derived): a pure value copy. -/
def clone (st : Ripemd160) : Ripemd160 := st

/-- `Reset::reset`: returns the pre-reset clone and leaves the hasher at its
initial state (`buffer.reset()`, `len = 0`, `h = H0`).  The pair is (returned
value, new state of `self`). -/
def reset (st : Ripemd160) : Ripemd160 × Ripemd160 :=
  (clone st, ⟨H0, 0, []⟩)

/-- Modelled from the spec: `finalize_reset` (`Digest::result_reset` of the
external `digest` crate) — calls `reset` and finalizes the returned pre-reset
clone.  The pair is (digest, new state of `self`). -/
def result_reset (st : Ripemd160) : List Nat × Ripemd160 :=
  ((reset st).1 |> fixed_result, (reset st).2)

/-- Modelled from the spec: `impl_opaque_debug!(Ripemd160)` (macro from the
external `opaque_debug` crate) renders a fixed string, never the internal
state. -/
def fmtDebug (_ : Ripemd160) : String :=
  "Ripemd160 \x7b ... \x7d"

/-- All five words of a `Word5` are reduced 32-bit values. -/
def wBound (w : Word5) : Prop :=
  w.a < M32 ∧ w.b < M32 ∧ w.c < M32 ∧ w.d < M32 ∧ w.e < M32

set_option maxRecDepth 100000 in
/-- Claim C4: a fresh hasher fed `"Hello world!"` yields
`7f772647d88750add82d8e1a7a3e5c0902a346a3`, and a fresh hasher finalized with
no input yields `9c1185a5c5e9fc54612808977ee8f548b2258d31`. -/
theorem known_answer_tests :
    fixed_result (process Ripemd160.init
        [72,101,108,108,111,32,119,111,114,108,100,33]) =
      [0x7f,0x77,0x26,0x47,0xd8,0x87,0x50,0xad,0xd8,0x2d,
       0x8e,0x1a,0x7a,0x3e,0x5c,0x09,0x02,0xa3,0x46,0xa3] ∧
    fixed_result Ripemd160.init =
      [0x9c,0x11,0x85,0xa5,0xc5,0xe9,0xfc,0x54,0x61,0x28,
       0x08,0x97,0x7e,0xe8,0xf5,0x48,0xb2,0x25,0x8d,0x31] := by
  constructor <;> decide

theorem processBytes_cons (h : Word5) (buf : List Nat) (x : Nat)
    (rest : List Nat) :
    processBytes h buf (x :: rest) =
      processBytes (bufStep (h, buf) x).1 (bufStep (h, buf) x).2 rest := by
  simp [processBytes, List.foldl_cons]

theorem processBytes_append (h : Word5) (buf a b : List Nat) :
    processBytes h buf (a ++ b) =
      processBytes (processBytes h buf a).1 (processBytes h buf a).2 b := by
  simp [processBytes, List.foldl_append]

theorem process_append (st : Ripemd160) (a b : List Nat) :
    process (process st a) b = process st (a ++ b) := by
  simp only [process, List.length_append, ← processBytes_append]
  rw [Nat.mod_add_mod, Nat.add_assoc]

theorem foldl_process_flatten :
    ∀ (ps : List (List Nat)) (st : Ripemd160), ps ≠ [] →
      ps.foldl process st = process st ps.flatten := by
  intro ps
  induction ps with
  | nil => intro st hne; exact absurd rfl hne
  | cons p ps ih =>
    intro st _
    cases ps with
    | nil => simp
    | cons q qs =>
      rw [List.foldl_cons, ih (process st p) (by simp), process_append]
      simp

/-- Claim C2: feeding a byte sequence through any partition into consecutive
process calls yields the same digest as feeding it in a single process call. -/
theorem chunking_invariance (ps : List (List Nat)) :
    fixed_result (ps.foldl process Ripemd160.init) =
      fixed_result (process Ripemd160.init ps.flatten) := by
  cases ps with
  | nil =>
    simp only [List.foldl_nil, List.flatten_nil]
    rw [show process Ripemd160.init [] = Ripemd160.init from by decide]
  | cons p qs =>
    rw [foldl_process_flatten _ _ (by simp)]

/-- Claim C1: `reset` (whose pre-reset clone is finalized by the digest-level
`finalize_reset`) yields the digest of the work completed before the reset and
leaves the hasher at its initial state: `h = H0`, empty buffer, zero length. -/
theorem finalize_reset_correct (st : Ripemd160) :
    (result_reset st).1 = fixed_result st ∧
    (result_reset st).2 = Ripemd160.init ∧
    (result_reset st).2.h = H0 ∧
    (result_reset st).2.buffer = [] ∧
    (result_reset st).2.len = 0 :=
  ⟨rfl, rfl, rfl, rfl, rfl⟩

/-- Claim C8: a clone is a pure value copy, and feeding divergent
continuations to the original and the clone yields digests equal to hashing
(common part ++ respective continuation) directly on a fresh hasher. -/
theorem clone_independence (pre contA contB : List Nat) :
    clone (process Ripemd160.init pre) = process Ripemd160.init pre ∧
    fixed_result (process (process Ripemd160.init pre) contA) =
      fixed_result (process Ripemd160.init (pre ++ contA)) ∧
    fixed_result (process (clone (process Ripemd160.init pre)) contB) =
      fixed_result (process Ripemd160.init (pre ++ contB)) := by
  refine ⟨rfl, ?_, ?_⟩
  · rw [process_append]
  · simp only [clone]
    rw [process_append]

/-- Claim C9: the debug rendering is the same fixed string for any two hasher
states; it never includes internal state. -/
theorem debug_rendering_constant (s1 s2 : Ripemd160) :
    fmtDebug s1 = fmtDebug s2 :=
  rfl

/-- Claim C10: the 64-bit length field written during padding is the byte
counter shifted left by 3, i.e. `(8 * len) mod 2^64`; at `len = 2^61` bytes it
silently wraps to zero. -/
theorem bit_length_wraps :
    (∀ st : Ripemd160, bitLenField st = (8 * st.len) % M64) ∧
    bitLenField ⟨H0, 2305843009213693952, []⟩ = 0 := by
  constructor
  · intro st
    rw [bitLenField, Nat.shiftLeft_eq]
    norm_num [Nat.mul_comm]
  · decide

theorem foldl_process_len :
    ∀ (inputs : List (List Nat)) (st : Ripemd160), st.len < M64 →
      (inputs.foldl process st).len =
        (st.len + (inputs.map List.length).sum) % M64 := by
  intro inputs
  induction inputs with
  | nil =>
    intro st hlt
    simp [Nat.mod_eq_of_lt hlt]
  | cons b rest ih =>
    intro st hlt
    have hstep : (process st b).len = (st.len + b.length) % M64 := rfl
    rw [List.foldl_cons,
      ih (process st b) (by rw [hstep]; exact Nat.mod_lt _ (by norm_num [M64])),
      hstep, Nat.mod_add_mod, List.map_cons, List.sum_cons, Nat.add_assoc]

/-- Claim C6: after any sequence of process calls on a fresh hasher the length
counter equals the sum of the input lengths modulo 2^64, exactly when the sum
stays below 2^64; each call adds exactly the input length. -/
theorem length_counter_correct (inputs : List (List Nat)) :
    (inputs.foldl process Ripemd160.init).len =
      (inputs.map List.length).sum % M64 ∧
    ((inputs.map List.length).sum < M64 →
      (inputs.foldl process Ripemd160.init).len =
        (inputs.map List.length).sum) ∧
    (∀ (st : Ripemd160) (b : List Nat),
      (process st b).len = (st.len + b.length) % M64) := by
  have hmain := foldl_process_len inputs Ripemd160.init (by norm_num [Ripemd160.init, M64])
  rw [show Ripemd160.init.len = 0 from rfl, Nat.zero_add] at hmain
  exact ⟨hmain, fun hlt => by rw [hmain, Nat.mod_eq_of_lt hlt],
    fun st b => rfl⟩

/-- Witness for C6 at a concrete partition: total length 3 below 2^64 is
counted exactly. -/
theorem length_counter_correct_witness :
    (List.foldl process Ripemd160.init [[1], [2, 3]]).len = 3 := by
  have h := (length_counter_correct [[1], [2, 3]]).2.1 (by decide)
  simpa using h

theorem process_msg_block_bound (h : Word5) (block : List Nat) :
    wBound (process_msg_block h block) := by
  simp only [wBound, process_msg_block]
  refine ⟨?_, ?_, ?_, ?_, ?_⟩ <;> exact Nat.mod_lt _ (by norm_num [M32])

theorem processBytes_bound :
    ∀ (data : List Nat) (h : Word5) (buf : List Nat),
      wBound h → wBound (processBytes h buf data).1 := by
  intro data
  induction data with
  | nil => intro h buf hw; exact hw
  | cons x rest ih =>
    intro h buf hw
    rw [processBytes_cons]
    apply ih
    by_cases hlen : (buf ++ [x]).length = 64
    · simp only [bufStep, hlen, if_pos]
      exact process_msg_block_bound h (buf ++ [x])
    · simp only [bufStep]
      rw [if_neg hlen]
      exact hw

theorem processBytes_bufLen :
    ∀ (data : List Nat) (h : Word5) (buf : List Nat), buf.length < 64 →
      ((processBytes h buf data).2).length = (buf.length + data.length) % 64 := by
  intro data
  induction data with
  | nil =>
    intro h buf hb
    simp [processBytes, Nat.mod_eq_of_lt hb]
  | cons x rest ih =>
    intro h buf hb
    rw [processBytes_cons]
    have hx : (buf ++ [x]).length = buf.length + 1 := by simp
    by_cases hlen : (buf ++ [x]).length = 64
    · have h2 : (bufStep (h, buf) x).2 = [] := by
        simp only [bufStep, hlen, if_pos]
      rw [h2, ih _ [] (by norm_num)]
      simp only [List.length_nil, List.length_cons]
      omega
    · have h2 : (bufStep (h, buf) x).2 = buf ++ [x] := by
        simp only [bufStep]
        rw [if_neg hlen]
      rw [h2, ih _ _ (by omega)]
      simp only [List.length_cons]
      rw [hx]
      omega

theorem le32val_le32 (x : Nat) (hx : x < M32) : le32val (le32 x) = x := by
  have hx' : x < 4294967296 := hx
  have hle : le32 x =
      [x % 256, (x >>> 8) % 256, (x >>> 16) % 256, (x >>> 24) % 256] := rfl
  rw [hle]
  simp only [le32val, List.getD_cons_zero, List.getD_cons_succ,
    Nat.shiftRight_eq_div_pow, show (2:Nat)^8 = 256 from rfl,
    show (2:Nat)^16 = 65536 from rfl, show (2:Nat)^24 = 16777216 from rfl]
  omega

/-- Claim C3: at finalization the appended padding is a single 0x80 byte,
then zero bytes until the buffered length is 56 mod 64, then the total bit
length (bytes times 8) as a 64-bit little-endian integer, and the completed
blocks are fed through the compression function. -/
theorem padding_scheme_correct (st : Ripemd160) (hb : st.buffer.length < 64) :
    ∃ k, finalPad st =
        0x80 :: (List.replicate k 0 ++ le64 ((8 * st.len) % M64)) ∧
      (st.buffer.length + 1 + k) % 64 = 56 ∧
      (st.buffer.length + (finalPad st).length) % 64 = 0 ∧
      fixed_result st =
        serializeWords (processBytes st.h st.buffer (finalPad st)).1 := by
  refine ⟨(119 - st.buffer.length) % 64, ?_, ?_, ?_, rfl⟩
  · simp only [finalPad, padBytes, bitLenField, Nat.shiftLeft_eq,
      Nat.mod_eq_of_lt hb, show (2:Nat)^3 = 8 from rfl, Nat.mul_comm]
  · omega
  · simp only [finalPad, padBytes, List.length_cons, List.length_append,
      List.length_replicate, le64, List.length_map, List.length_range]
    omega

/-- Witness for C3 at the fresh hasher (empty pending buffer). -/
theorem padding_scheme_correct_witness :
    ∃ k, finalPad Ripemd160.init =
        0x80 :: (List.replicate k 0 ++ le64 ((8 * Ripemd160.init.len) % M64)) ∧
      (Ripemd160.init.buffer.length + 1 + k) % 64 = 56 ∧
      (Ripemd160.init.buffer.length + (finalPad Ripemd160.init).length) % 64 = 0 ∧
      fixed_result Ripemd160.init =
        serializeWords
          (processBytes Ripemd160.init.h Ripemd160.init.buffer
            (finalPad Ripemd160.init)).1 :=
  padding_scheme_correct Ripemd160.init (by decide)

/-- Claim C5: the digest is exactly 20 bytes, the five final state words each
serialized little-endian and concatenated in order; each word is recoverable
from its four bytes. -/
theorem digest_serialization (st : Ripemd160) (hw : wBound st.h) :
    (fixed_result st).length = 20 ∧
    fixed_result st =
      le32 (finalWords st).a ++ le32 (finalWords st).b ++
      le32 (finalWords st).c ++ le32 (finalWords st).d ++
      le32 (finalWords st).e ∧
    le32val ((fixed_result st).take 4) = (finalWords st).a ∧
    le32val (((fixed_result st).drop 4).take 4) = (finalWords st).b ∧
    le32val (((fixed_result st).drop 8).take 4) = (finalWords st).c ∧
    le32val (((fixed_result st).drop 12).take 4) = (finalWords st).d ∧
    le32val ((fixed_result st).drop 16) = (finalWords st).e := by
  obtain ⟨ha, hb2, hc, hd, he⟩ :=
    processBytes_bound (finalPad st) st.h st.buffer hw
  exact ⟨rfl, rfl, le32val_le32 _ ha, le32val_le32 _ hb2, le32val_le32 _ hc,
    le32val_le32 _ hd, le32val_le32 _ he⟩

/-- Witness for C5 at the fresh hasher. -/
theorem digest_serialization_witness :
    (fixed_result Ripemd160.init).length = 20 ∧
    fixed_result Ripemd160.init =
      le32 (finalWords Ripemd160.init).a ++ le32 (finalWords Ripemd160.init).b ++
      le32 (finalWords Ripemd160.init).c ++ le32 (finalWords Ripemd160.init).d ++
      le32 (finalWords Ripemd160.init).e ∧
    le32val ((fixed_result Ripemd160.init).take 4) =
      (finalWords Ripemd160.init).a ∧
    le32val (((fixed_result Ripemd160.init).drop 4).take 4) =
      (finalWords Ripemd160.init).b ∧
    le32val (((fixed_result Ripemd160.init).drop 8).take 4) =
      (finalWords Ripemd160.init).c ∧
    le32val (((fixed_result Ripemd160.init).drop 12).take 4) =
      (finalWords Ripemd160.init).d ∧
    le32val ((fixed_result Ripemd160.init).drop 16) =
      (finalWords Ripemd160.init).e :=
  digest_serialization Ripemd160.init
    ⟨by decide, by decide, by decide, by decide, by decide⟩

/-- Claim C7: finalization feeds exactly one extra 64-byte block when the
pending buffer holds at most 55 bytes and exactly two when it holds 56..63;
the padding always starts with 0x80 and the buffer is empty afterwards. -/
theorem final_blocks_count (st : Ripemd160) (hb : st.buffer.length < 64) :
    st.buffer.length + (finalPad st).length =
      (if 56 ≤ st.buffer.length then 2 else 1) * 64 ∧
    (finalPad st).head? = some 0x80 ∧
    (processBytes st.h st.buffer (finalPad st)).2 = [] := by
  have hpl : (finalPad st).length = 9 + (119 - st.buffer.length % 64) % 64 := by
    simp only [finalPad, padBytes, List.length_cons, List.length_append,
      List.length_replicate, le64, List.length_map, List.length_range]
    omega
  refine ⟨?_, rfl, ?_⟩
  · rw [hpl]
    split_ifs <;> omega
  · have hl := processBytes_bufLen (finalPad st) st.h st.buffer hb
    have hz : ((processBytes st.h st.buffer (finalPad st)).2).length = 0 := by
      rw [hl, hpl]
      omega
    exact List.length_eq_zero.mp hz

/-- Witness for C7 at the fresh hasher: the empty pending buffer still gets
the 0x80 byte and a single padding-only block. -/
theorem final_blocks_count_witness :
    Ripemd160.init.buffer.length + (finalPad Ripemd160.init).length =
      (if 56 ≤ Ripemd160.init.buffer.length then 2 else 1) * 64 ∧
    (finalPad Ripemd160.init).head? = some 0x80 ∧
    (processBytes Ripemd160.init.h Ripemd160.init.buffer
      (finalPad Ripemd160.init)).2 = [] :=
  final_blocks_count Ripemd160.init (by decide)
